import Mathlib

/-!
Verification of the mindat-api-scrapper core pipeline: a shallow embedding of
the pagination client (`src/mindat/api_client.py`), the query-strategy
resolver (`src/repositories/localities_repo.py`), the HTTP transport
(`src/http.py`), the download orchestrator
(`src/mindat/services/download_service.py`) and the durable writer
(`src/utils/io.py`), together with theorems settling the spec claims.
-/

set_option autoImplicit false

namespace MindatScrapper

/-- JSON values as Python's `json` module decodes them: `None`, `bool`,
numbers, `str`, `list`, `dict` (a dict is modelled as an association list
of string keys in insertion order). -/
inductive Json where
  | null
  | bool (b : Bool)
  | num (n : Int)
  | str (s : String)
  | arr (elems : List Json)
  | obj (fields : List (String × Json))

/-- First-match lookup in an association list, i.e. Python `d.get(k)` on a
dict represented as its key/value pairs. -/
def lookupKey : List (String × Json) → String → Option Json
  | [], _ => none
  | (k, v) :: rest, key => if k = key then some v else lookupKey rest key

/-- Python `d[k] = v` (also the effect of `d | \x7bk: v\x7d`): replace the value at
the first occurrence of `k` keeping its position, or append `(k, v)`. -/
def setKey : List (String × Json) → String → Json → List (String × Json)
  | [], key, v => [(key, v)]
  | (k, w) :: rest, key, v =>
    if k = key then (key, v) :: rest else (k, w) :: setKey rest key v

/-- Python truthiness of a decoded JSON value (`while next_url:` tests this). -/
def pyTruthy : Json → Bool
  | .null => false
  | .bool b => b
  | .num n => n ≠ 0
  | .str s => s ≠ ""
  | .arr elems => !elems.isEmpty
  | .obj fields => !fields.isEmpty

@[simp] theorem lookupKey_nil (key : String) : lookupKey [] key = none := rfl

@[simp] theorem lookupKey_cons (k : String) (v : Json) (rest : List (String × Json))
    (key : String) :
    lookupKey ((k, v) :: rest) key = if k = key then some v else lookupKey rest key := rfl

@[simp] theorem lookupKey_setKey_self (l : List (String × Json)) (key : String) (v : Json) :
    lookupKey (setKey l key v) key = some v := by
  induction l with
  | nil => simp [setKey]
  | cons kv rest ih =>
    obtain ⟨k, w⟩ := kv
    by_cases h : k = key
    · simp [setKey, h]
    · simp [setKey, h, ih]

theorem lookupKey_setKey_other (l : List (String × Json)) (key other : String) (v : Json)
    (h : other ≠ key) : lookupKey (setKey l key v) other = lookupKey l other := by
  induction l with
  | nil => simp [setKey, lookupKey, Ne.symm h]
  | cons kv rest ih =>
    obtain ⟨k, w⟩ := kv
    by_cases hk : k = key
    · subst hk
      simp [setKey, lookupKey, Ne.symm h]
    · simp [setKey, hk, lookupKey, ih]

/-! ## Paginated client (`src/mindat/api_client.py`) -/

/-- Embedding of `_extract_page(data)`: a bare array is the whole record list with no
count and no continuation; a dict with a list-valued `results` key yields
that list plus the optional `count` and `next` fields; anything else
normalizes to `([], None, None)`. -/
def extract_page (data : Json) : List Json × Option Json × Option Json :=
  match data with
  | .arr elems => (elems, none, none)
  | .obj fields =>
    match lookupKey fields "results" with
    | some (.arr res) => (res, lookupKey fields "count", lookupKey fields "next")
    | _ => ([], none, none)
  | _ => ([], none, none)

/-- A page body that is neither an array nor an object with a list-valued
`results` key (the malformed shape of the edge-case policy). -/
def isMalformed (data : Json) : Bool :=
  match data with
  | .arr _ => false
  | .obj fields =>
    match lookupKey fields "results" with
    | some (.arr _) => false
    | _ => true
  | _ => true

/-- A page body shaped as an object with a list-valued `results` key. -/
def isResultsPage (data : Json) : Bool :=
  match data with
  | .obj fields =>
    match lookupKey fields "results" with
    | some (.arr _) => true
    | _ => false
  | _ => false

/-- The `while next_url:` loop of `search_localities`: while the extracted
`next` value is present and truthy, request it with no query parameters
(`get_json(next_url)` passes none), extract the page, yield its results and
continue on the new `next`. Returns the yielded records and the issued
requests as (locator, params) pairs. `fuel` bounds the iteration so the
function is total; every finite pagination chain is reached with enough fuel. -/
def pagLoop (fetch : Json → List (String × Json) → Json) :
    Nat → Option Json → List Json × List (Json × List (String × Json))
  | 0, _ => ([], [])
  | _ + 1, none => ([], [])
  | fuel + 1, some nu =>
    if pyTruthy nu then
      match extract_page (fetch nu []) with
      | (res, _, nx) =>
        match pagLoop fetch fuel nx with
        | (items, reqs) => (res ++ items, (nu, []) :: reqs)
    else ([], [])

/-- Embedding of `MindatClient.search_localities(base_params)`: copy the base params, set
`page_size`, request the localities URL, extract and yield the first page,
then follow `next` links via the loop. Returns the yielded record stream and
the full request sequence. -/
def search_localities (fetch : Json → List (String × Json) → Json) (url : String)
    (base_params : List (String × Json)) (page_size : Int) (fuel : Nat) :
    List Json × List (Json × List (String × Json)) :=
  let ps := setKey base_params "page_size" (.num page_size)
  match extract_page (fetch (.str url) ps) with
  | (res, _, nx) =>
    match pagLoop fetch fuel nx with
    | (items, reqs) => (res ++ items, (Json.str url, ps) :: reqs)

/-- A terminated pagination chain starting from an extracted `next` value:
either the `next` field is absent, null or the empty string (termination), or
it is a non-empty string locator whose fetched body is a `results` page
contributing its record list. Collects the per-page record lists and the
followed locators. -/
inductive Chain (fetch : Json → List (String × Json) → Json) :
    Option Json → List (List Json) → List String → Prop where
  | done (nx : Option Json)
      (h : nx = none ∨ nx = some .null ∨ nx = some (.str "")) :
      Chain fetch nx [] []
  | step (s : String) (res : List Json) (cnt nx : Option Json)
      (pages : List (List Json)) (locs : List String)
      (hs : s ≠ "")
      (hshape : isResultsPage (fetch (.str s) []) = true)
      (hex : extract_page (fetch (.str s) []) = (res, cnt, nx))
      (hrest : Chain fetch nx pages locs) :
      Chain fetch (some (.str s)) (res :: pages) (s :: locs)

theorem pagLoop_of_chain (fetch : Json → List (String × Json) → Json)
    (nx : Option Json) (pages : List (List Json)) (locs : List String)
    (hc : Chain fetch nx pages locs) :
    ∀ fuel, locs.length ≤ fuel →
      pagLoop fetch fuel nx
        = (pages.flatten, locs.map fun s => (Json.str s, ([] : List (String × Json)))) := by
  induction hc with
  | done nx h =>
    intro fuel _
    match fuel with
    | 0 => simp [pagLoop]
    | fuel + 1 =>
      rcases h with h | h | h <;> subst h <;> simp [pagLoop, pyTruthy]
  | step s res cnt nx pages locs hs hshape hex hrest ih =>
    intro fuel hfuel
    match fuel with
    | 0 => simp at hfuel
    | fuel + 1 =>
      have hf : locs.length ≤ fuel := by
        simpa using Nat.lt_succ_iff.mp (Nat.lt_of_lt_of_le (Nat.lt_succ_self _) hfuel)
      simp only [pagLoop, pyTruthy, hex, ih fuel hf]
      simp [hs]

@[simp] theorem pagLoop_none (fetch : Json → List (String × Json) → Json) (fuel : Nat) :
    pagLoop fetch fuel none = ([], []) := by
  cases fuel <;> rfl

theorem extract_page_of_malformed (data : Json) (hm : isMalformed data = true) :
    extract_page data = ([], none, none) := by
  cases data with
  | null => rfl
  | bool b => rfl
  | num n => rfl
  | str s => rfl
  | arr elems => simp [isMalformed] at hm
  | obj fields =>
    simp only [extract_page, isMalformed] at hm ⊢
    cases h : lookupKey fields "results" with
    | none => simp [h]
    | some j =>
      rw [h] at hm
      cases j with
      | arr res => simp at hm
      | null => simp [h]
      | bool b => simp [h]
      | num n => simp [h]
      | str s => simp [h]
      | obj kvs => simp [h]

set_option linter.unusedVariables false in
/-- C2: when every page body is a `results` object, `search_localities`
yields the concatenation of all pages' `results` lists in page order (so the
total yielded count is the sum of the per-page lengths), issues exactly one
request per followed `next` locator, passing the locator verbatim with no
query parameters, and stops exactly at an absent, null or empty `next`. -/
theorem search_localities_follows_next_chain
    (fetch : Json → List (String × Json) → Json) (url : String)
    (base_params : List (String × Json)) (page_size : Int) (fuel : Nat)
    (res0 : List Json) (cnt0 nx0 : Option Json)
    (pages : List (List Json)) (locs : List String)
    (hshape0 : isResultsPage
      (fetch (.str url) (setKey base_params "page_size" (.num page_size))) = true)
    (hex0 : extract_page
      (fetch (.str url) (setKey base_params "page_size" (.num page_size)))
      = (res0, cnt0, nx0))
    (hchain : Chain fetch nx0 pages locs)
    (hfuel : locs.length ≤ fuel) :
    search_localities fetch url base_params page_size fuel
      = (res0 ++ pages.flatten,
         (Json.str url, setKey base_params "page_size" (.num page_size))
           :: locs.map (fun s => (Json.str s, ([] : List (String × Json)))))
    ∧ (res0 ++ pages.flatten).length = res0.length + (pages.map List.length).sum := by
  have hl := pagLoop_of_chain fetch nx0 pages locs hchain fuel hfuel
  constructor
  · simp only [search_localities, hex0, hl]
  · simp [List.length_flatten]

/-- Two-page server used to witness the pagination chain: the first request
returns two records and a `next` locator `"P2"`, and `"P2"` returns one
record with `next` null. -/
def fetchTwoPages : Json → List (String × Json) → Json := fun loc _ =>
  match loc with
  | .str "P2" => .obj [("results", .arr [.num 8]), ("next", .null)]
  | _ => .obj [("results", .arr [.num 5, .num 6]), ("next", .str "P2")]

theorem search_localities_follows_next_chain_witness :
    search_localities fetchTwoPages "L1" [("country", Json.str "Iran")] 100 5
      = ([Json.num 5, Json.num 6, Json.num 8],
         [(Json.str "L1", [("country", Json.str "Iran"), ("page_size", Json.num 100)]),
          (Json.str "P2", [])]) := by
  have hchain : Chain fetchTwoPages (some (Json.str "P2")) [[Json.num 8]] ["P2"] := by
    refine Chain.step "P2" [Json.num 8] none (some Json.null) [] [] (by decide) rfl rfl ?_
    exact Chain.done _ (Or.inr (Or.inl rfl))
  exact (search_localities_follows_next_chain fetchTwoPages "L1"
    [("country", Json.str "Iran")] 100 5 [Json.num 5, Json.num 6] none
    (some (Json.str "P2")) [[Json.num 8]] ["P2"] rfl rfl hchain (by decide)).1

/-- C7: a response whose body is a bare JSON array is yielded element by
element, in order, with no continuation: the extraction produces no `next`
locator and the only request issued is the initial one. -/
theorem search_localities_bare_array
    (fetch : Json → List (String × Json) → Json) (url : String)
    (base_params : List (String × Json)) (page_size : Int) (fuel : Nat)
    (elems : List Json)
    (h : fetch (.str url) (setKey base_params "page_size" (.num page_size))
      = .arr elems) :
    extract_page (.arr elems) = (elems, none, none)
    ∧ search_localities fetch url base_params page_size fuel
        = (elems, [(Json.str url, setKey base_params "page_size" (.num page_size))]) := by
  refine ⟨rfl, ?_⟩
  simp [search_localities, h, extract_page]

theorem search_localities_bare_array_witness :
    search_localities (fun _ _ => Json.arr [Json.num 1, Json.num 2]) "L1" [] 100 3
      = ([Json.num 1, Json.num 2], [(Json.str "L1", [("page_size", Json.num 100)])]) :=
  (search_localities_bare_array (fun _ _ => Json.arr [Json.num 1, Json.num 2])
    "L1" [] 100 3 [Json.num 1, Json.num 2] rfl).2

/-- C8: a page body that is neither an array nor an object with a list-valued
`results` key normalizes to an empty record list with no count and no
continuation, and pagination ends silently: the stream is empty and no
follow-up request is issued. -/
theorem search_localities_malformed_page
    (fetch : Json → List (String × Json) → Json) (url : String)
    (base_params : List (String × Json)) (page_size : Int) (fuel : Nat)
    (hm : isMalformed
      (fetch (.str url) (setKey base_params "page_size" (.num page_size))) = true) :
    extract_page (fetch (.str url) (setKey base_params "page_size" (.num page_size)))
      = ([], none, none)
    ∧ search_localities fetch url base_params page_size fuel
        = ([], [(Json.str url, setKey base_params "page_size" (.num page_size))]) := by
  have he := extract_page_of_malformed _ hm
  refine ⟨he, ?_⟩
  simp [search_localities, he]

theorem search_localities_malformed_page_witness :
    search_localities (fun _ _ => Json.obj [("detail", Json.str "Not found.")]) "L1" [] 100 3
      = ([], [(Json.str "L1", [("page_size", Json.num 100)])]) :=
  (search_localities_malformed_page (fun _ _ => Json.obj [("detail", Json.str "Not found.")])
    "L1" [] 100 3 rfl).2

/-! ## Query strategy resolver (`src/repositories/localities_repo.py`) -/

/-- One configured search strategy: a dict with `param` and `value` keys in
`config.yaml`, read as `strat["param"]` / `strat["value"]`. -/
structure Strategy where
  param : String
  value : Json

/-- The params a strategy queries with: the fixed base
`{"format": "json", "country": country}` merged (`base | {param: value}`,
right operand winning) with the strategy's pair. -/
def stratParams (country : String) (s : Strategy) : List (String × Json) :=
  setKey [("format", Json.str "json"), ("country", Json.str country)] s.param s.value

/-- Embedding of `LocalitiesRepository.iter_mines_in_country`: try the configured
strategies in order; pull the first record of each stream; a strategy whose
stream is immediately empty is discarded and the next is tried; the first
strategy with a record has its whole stream yielded (the first record, then
the remainder unmodified) and the loop breaks; if all strategies are empty
the resolver yields nothing. `search` abstracts
`client.search_localities(params)` as the stream it would produce; the
second component records the params of every stream actually opened. -/
def iter_mines_in_country (search : List (String × Json) → List Json) (country : String) :
    List Strategy → List Json × List (List (String × Json))
  | [] => ([], [])
  | s :: rest =>
    let ps := stratParams country s
    match search ps with
    | [] =>
      match iter_mines_in_country search country rest with
      | (out, reqs) => (out, ps :: reqs)
    | first :: more => (first :: more, [ps])

/-- C1: strategies are tried in order; the first whose stream is non-empty is
exclusive — the resolver returns exactly that stream (its first record
followed by the remainder unmodified) and opens no stream for any later
strategy; immediately-empty strategies are discarded in order; if every
strategy yields zero records the resolver yields the empty sequence. -/
theorem iter_mines_first_nonempty_strategy_wins
    (search : List (String × Json) → List Json) (country : String) :
    (∀ (pre : List Strategy) (s : Strategy) (post : List Strategy),
      (∀ t ∈ pre, search (stratParams country t) = []) →
      search (stratParams country s) ≠ [] →
      iter_mines_in_country search country (pre ++ s :: post)
        = (search (stratParams country s),
           pre.map (stratParams country) ++ [stratParams country s]))
    ∧ (∀ strats : List Strategy,
      (∀ t ∈ strats, search (stratParams country t) = []) →
      iter_mines_in_country search country strats
        = ([], strats.map (stratParams country))) := by
  constructor
  · intro pre s post hpre hs
    induction pre with
    | nil =>
      simp only [List.nil_append, iter_mines_in_country]
      cases h : search (stratParams country s) with
      | nil => exact absurd h hs
      | cons first more => simp
    | cons t rest ih =>
      have ht : search (stratParams country t) = [] := hpre t (by simp)
      have hrest : ∀ u ∈ rest, search (stratParams country u) = [] := by
        intro u hu; exact hpre u (by simp [hu])
      simp only [List.cons_append, iter_mines_in_country, ht]
      simp [ih hrest]
  · intro strats hall
    induction strats with
    | nil => rfl
    | cons t rest ih =>
      have ht : search (stratParams country t) = [] := hall t (by simp)
      have hrest : ∀ u ∈ rest, search (stratParams country u) = [] := by
        intro u hu; exact hall u (by simp [hu])
      simp only [iter_mines_in_country, ht]
      simp [ih hrest]

/-- Witness search function: the `ltype=60` strategy finds nothing, the
`txt=Mine` strategy finds three records. -/
def witnessSearch : List (String × Json) → List Json := fun ps =>
  match lookupKey ps "txt" with
  | some (.str "Mine") => [Json.num 1, Json.num 2, Json.num 3]
  | _ => []

theorem iter_mines_first_nonempty_strategy_wins_witness :
    iter_mines_in_country witnessSearch "Iran"
      [⟨"ltype", Json.num 60⟩, ⟨"txt", Json.str "Mine"⟩, ⟨"never", Json.null⟩]
      = ([Json.num 1, Json.num 2, Json.num 3],
         [[("format", Json.str "json"), ("country", Json.str "Iran"),
           ("ltype", Json.num 60)],
          [("format", Json.str "json"), ("country", Json.str "Iran"),
           ("txt", Json.str "Mine")]]) := by
  have h := (iter_mines_first_nonempty_strategy_wins witnessSearch "Iran").1
    [⟨"ltype", Json.num 60⟩] ⟨"txt", Json.str "Mine"⟩ [⟨"never", Json.null⟩]
    (by intro t ht; simp at ht; subst ht; rfl)
    (by intro hc; exact List.noConfusion hc)
  simpa [stratParams, setKey, witnessSearch, lookupKey] using h

/-! ## Download orchestrator (`src/mindat/services/download_service.py`) -/

/-- How a run of `download_country_mines` can abort: `item = dict(loc)` on a
non-mapping raises, `loc["id"]` on a missing key raises, and any exception
from `get_locality_detail` propagates (only the minerals lookup is wrapped
in `try/except`). -/
inductive RunErr (ε : Type) where
  | notADict
  | keyError
  | client (e : ε)

/-- The per-record body of `download_country_mines`: copy the record, and if
`enrich` is set fetch the detail for `loc["id"]` (errors propagate), store it
under `"detail"`, then try the minerals list and store it under
`"locality_minerals"`, swallowing any error from that lookup. `gd` and `lm`
abstract `client.get_locality_detail` / `client.list_locality_minerals`
applied to the record's id. -/
def processRecord {ε : Type} (gd : Json → Except ε Json)
    (lm : Json → Except ε (List Json)) (enrich : Bool) (loc : Json) :
    Except (RunErr ε) Json :=
  match loc with
  | .obj fields =>
    if enrich then
      match lookupKey fields "id" with
      | none => .error .keyError
      | some lid =>
        match gd lid with
        | .error e => .error (.client e)
        | .ok detail =>
          let item := setKey fields "detail" detail
          match lm lid with
          | .error _ => .ok (.obj item)
          | .ok mins => .ok (.obj (setKey item "locality_minerals" (.arr mins)))
    else .ok (.obj fields)
  | _ => .error .notADict

/-- The `for loc in self.repo.iter_mines_in_country(country):` loop: process
each record of the stream in order, persisting each processed record
(`append_and_save` / `write_one`); an error aborts the run, leaving the
records already written. Returns the sequence of persisted records and the
aborting error, if any. -/
def downloadLoop {ε : Type} (gd : Json → Except ε Json)
    (lm : Json → Except ε (List Json)) (enrich : Bool) :
    List Json → List Json × Option (RunErr ε)
  | [] => ([], none)
  | loc :: rest =>
    match processRecord gd lm enrich loc with
    | .error e => ([], some e)
    | .ok item =>
      match downloadLoop gd lm enrich rest with
      | (written, err) => (item :: written, err)

/-- The `DownloadService` constructor state: the client lookups, the
configured save format, and `checkpoint_every` (stored by `__init__` from
`SaveCfg`). -/
structure DownloadService (ε : Type) where
  getDetail : Json → Except ε Json
  listMinerals : Json → Except ε (List Json)
  saveFormat : String
  checkpointEvery : Nat

/-- Embedding of `DownloadService.download_country_mines` as the sequence of persisted
records plus the aborting error, for a given resolver stream. -/
def download_country_mines {ε : Type} (svc : DownloadService ε) (enrich : Bool)
    (stream : List Json) : List Json × Option (RunErr ε) :=
  downloadLoop svc.getDetail svc.listMinerals enrich stream

/-- C3: if the minerals lookup fails for a record, the record is still
persisted — exactly the original fields plus the `"detail"` entry and, when
the record did not already carry one, no `"locality_minerals"` key — and the
run continues with the remaining records; whereas a failing detail lookup
aborts the run with that error and persists nothing further. -/
theorem download_enrichment_failure_isolated {ε : Type}
    (gd : Json → Except ε Json) (lm : Json → Except ε (List Json))
    (fields : List (String × Json)) (lid detail : Json) (e : ε) (rest : List Json)
    (hid : lookupKey fields "id" = some lid)
    (hd : gd lid = .ok detail)
    (hm : lm lid = .error e) :
    processRecord gd lm true (.obj fields) = .ok (.obj (setKey fields "detail" detail))
    ∧ (lookupKey fields "locality_minerals" = none →
        lookupKey (setKey fields "detail" detail) "locality_minerals" = none)
    ∧ downloadLoop gd lm true (Json.obj fields :: rest)
        = (Json.obj (setKey fields "detail" detail)
            :: (downloadLoop gd lm true rest).1,
           (downloadLoop gd lm true rest).2)
    ∧ (∀ (fields2 : List (String × Json)) (lid2 : Json) (e2 : ε),
        lookupKey fields2 "id" = some lid2 →
        gd lid2 = .error e2 →
        downloadLoop gd lm true (Json.obj fields2 :: rest)
          = ([], some (.client e2))) := by
  have hp : processRecord gd lm true (.obj fields)
      = .ok (.obj (setKey fields "detail" detail)) := by
    simp [processRecord, hid, hd, hm]
  refine ⟨hp, ?_, ?_, ?_⟩
  · intro hnone
    rw [lookupKey_setKey_other _ _ _ _ (by decide)]
    exact hnone
  · simp [downloadLoop, hp]
  · intro fields2 lid2 e2 hid2 hd2
    simp [downloadLoop, processRecord, hid2, hd2]

theorem download_enrichment_failure_isolated_witness :
    processRecord (fun _ => (.ok (Json.num 7) : Except String Json))
        (fun _ => .error "boom") true (.obj [("id", Json.num 1)])
      = .ok (.obj [("id", Json.num 1), ("detail", Json.num 7)]) :=
  (download_enrichment_failure_isolated
    (fun _ => (.ok (Json.num 7) : Except String Json)) (fun _ => .error "boom")
    [("id", Json.num 1)] (Json.num 1) (Json.num 7) "boom" [] rfl rfl rfl).1

/-- C4 as stated fails: enrichment assigns `item["detail"]` /
`item["locality_minerals"]` directly, so a record fetched with a top-level
`"detail"` key has it overwritten rather than preserved. Concretely, for the
record `{"id": 1, "detail": "orig"}` the persisted record carries
`"detail" = 7`, not the original pair. -/
theorem download_merge_overwrites_detail_counterexample :
    processRecord (fun _ => (.ok (Json.num 7) : Except Unit Json)) (fun _ => .ok [])
        true (.obj [("id", Json.num 1), ("detail", Json.str "orig")])
      = .ok (.obj [("id", Json.num 1), ("detail", Json.num 7),
                   ("locality_minerals", Json.arr [])])
    ∧ lookupKey [("id", Json.num 1), ("detail", Json.num 7),
                 ("locality_minerals", Json.arr [])] "detail"
        ≠ some (Json.str "orig")
    ∧ ("detail", Json.str "orig")
        ∉ ([("id", Json.num 1), ("detail", Json.num 7),
            ("locality_minerals", Json.arr [])] : List (String × Json)) := by
  refine ⟨rfl, ?_, ?_⟩
  · intro h
    simp [lookupKey] at h
  · intro h
    simp [Prod.ext_iff] at h

/-- C4 amended: merging adds the detail under `"detail"` and the minerals
list under `"locality_minerals"`, and no top-level key other than those two
namespaced keys is created, removed or overwritten — every original key
except `"detail"` and `"locality_minerals"` keeps its original value in the
persisted record. -/
theorem download_merge_preserves_other_keys {ε : Type}
    (gd : Json → Except ε Json) (lm : Json → Except ε (List Json))
    (fields : List (String × Json)) (lid detail : Json) (mins : List Json)
    (hid : lookupKey fields "id" = some lid)
    (hd : gd lid = .ok detail)
    (hm : lm lid = .ok mins) :
    processRecord gd lm true (.obj fields)
      = .ok (.obj (setKey (setKey fields "detail" detail)
          "locality_minerals" (.arr mins)))
    ∧ lookupKey (setKey (setKey fields "detail" detail)
          "locality_minerals" (.arr mins)) "detail" = some detail
    ∧ lookupKey (setKey (setKey fields "detail" detail)
          "locality_minerals" (.arr mins)) "locality_minerals" = some (.arr mins)
    ∧ (∀ key : String, key ≠ "detail" → key ≠ "locality_minerals" →
        lookupKey (setKey (setKey fields "detail" detail)
          "locality_minerals" (.arr mins)) key = lookupKey fields key) := by
  refine ⟨by simp [processRecord, hid, hd, hm], ?_, by simp, ?_⟩
  · rw [lookupKey_setKey_other _ _ _ _ (by decide)]
    simp
  · intro key hk1 hk2
    rw [lookupKey_setKey_other _ _ _ _ hk2, lookupKey_setKey_other _ _ _ _ hk1]

theorem download_merge_preserves_other_keys_witness :
    processRecord (fun _ => (.ok (Json.num 7) : Except Unit Json))
        (fun _ => .ok [Json.num 9]) true
        (.obj [("id", Json.num 1), ("txt", Json.str "Mine")])
      = .ok (.obj [("id", Json.num 1), ("txt", Json.str "Mine"),
                   ("detail", Json.num 7),
                   ("locality_minerals", Json.arr [Json.num 9])])
    ∧ lookupKey [("id", Json.num 1), ("txt", Json.str "Mine"),
                 ("detail", Json.num 7),
                 ("locality_minerals", Json.arr [Json.num 9])] "txt"
        = some (Json.str "Mine") := by
  have h := download_merge_preserves_other_keys
    (fun _ => (.ok (Json.num 7) : Except Unit Json)) (fun _ => .ok [Json.num 9])
    [("id", Json.num 1), ("txt", Json.str "Mine")] (Json.num 1) (Json.num 7)
    [Json.num 9] rfl rfl rfl
  exact ⟨h.1, h.2.2.2 "txt" (by decide) (by decide)⟩

/-- C10: `checkpoint_every` is stored by the constructor but never read by
`download_country_mines`: two runs differing only in it perform the same
sequence of persisting writes and end in the same state, and on a successful
run the writer persists exactly once per record of the stream. -/
theorem download_checkpoint_every_no_effect {ε : Type} (svc : DownloadService ε)
    (ce1 ce2 : Nat) (enrich : Bool) (stream : List Json) :
    download_country_mines { svc with checkpointEvery := ce1 } enrich stream
      = download_country_mines { svc with checkpointEvery := ce2 } enrich stream
    ∧ ((download_country_mines { svc with checkpointEvery := ce1 } enrich stream).2
          = none →
        (download_country_mines { svc with checkpointEvery := ce1 }
          enrich stream).1.length = stream.length) := by
  refine ⟨rfl, ?_⟩
  simp only [download_country_mines]
  induction stream with
  | nil => intro _; rfl
  | cons loc rest ih =>
    intro hok
    simp only [downloadLoop] at hok ⊢
    cases hp : processRecord svc.getDetail svc.listMinerals enrich loc with
    | error e => rw [hp] at hok; simp at hok
    | ok item =>
      rw [hp] at hok
      simp at hok ⊢
      exact ih hok

theorem download_checkpoint_every_no_effect_witness :
    (download_country_mines
        (⟨fun _ => (.ok Json.null : Except Unit Json), fun _ => .ok [], "json", 1⟩ :
          DownloadService Unit) false [Json.obj [], Json.obj []]).1.length = 2 := by
  have h := download_checkpoint_every_no_effect
    (⟨fun _ => (.ok Json.null : Except Unit Json), fun _ => .ok [], "json", 1⟩ :
      DownloadService Unit) 1 5 false [Json.obj [], Json.obj []]
  exact h.2 rfl

/-! ## HTTP transport (`src/http.py`) -/

/-- One HTTP response as `get_json` inspects it: status code, whether the
`Content-Type` header is a JSON media type, and the parsed body when
`r.json()` succeeds. -/
structure Response where
  status : Nat
  ctypeJson : Bool
  body : Option Json

/-- The urllib3 `Retry` behaviour configured in `HttpSession.__init__`
(`status_forcelist`, `raise_on_status=False`): a response whose status is in
the forcelist is retried while the retry budget lasts; once the budget is
exhausted, or on the first status outside the forcelist, that response is
returned. `responses k` is the response to attempt `k`; the second component
counts the attempts made. -/
def retryLoop (forcelist : List Nat) (responses : Nat → Response) :
    Nat → Nat → Response × Nat
  | 0, attempt => (responses attempt, attempt + 1)
  | remaining + 1, attempt =>
    if (responses attempt).status ∈ forcelist then
      retryLoop forcelist responses remaining (attempt + 1)
    else (responses attempt, attempt + 1)

/-- Embedding of `self.session.get(...)` through the mounted retrying adapter:
`total` retries on forcelisted statuses, returning the final response and the
number of attempts issued. -/
def sessionGet (forcelist : List Nat) (total : Nat) (responses : Nat → Response) :
    Response × Nat :=
  retryLoop forcelist responses total 0

/-- The outcome of `HttpSession.get_json`: the typed error raised
(`MindatAuthError`, `MindatHTTPError`, `MindatJSONError`) or the decoded
body. -/
inductive HttpOutcome where
  | authError
  | httpError
  | jsonError
  | ok (body : Json)

/-- Embedding of `HttpSession.get_json`: issue the request through the retrying session,
then classify the final response — 401/403 raise `MindatAuthError`, any other
non-200 raises `MindatHTTPError`, a non-JSON content type or an unparseable
body raises `MindatJSONError`, otherwise the parsed body is returned. Also
reports the number of attempts the transport issued. -/
def get_json (forcelist : List Nat) (total : Nat) (responses : Nat → Response) :
    HttpOutcome × Nat :=
  match sessionGet forcelist total responses with
  | (r, attempts) =>
    if r.status = 401 ∨ r.status = 403 then (.authError, attempts)
    else if r.status ≠ 200 then (.httpError, attempts)
    else if !r.ctypeJson then (.jsonError, attempts)
    else
      match r.body with
      | none => (.jsonError, attempts)
      | some body => (.ok body, attempts)

/-- C5: with 401 and 403 outside the configured retryable status set (they
are not in the default `[429, 500, 502, 503, 504]`), a first response of
401 or 403 makes `get_json` raise `MindatAuthError` after exactly one attempt
— zero retries — while any final response (reached after the retry budget
for retryable statuses is spent) whose status is neither 200 nor 401/403
raises `MindatHTTPError`. -/
theorem get_json_auth_never_retried (forcelist : List Nat) (total : Nat)
    (responses : Nat → Response)
    (h401 : 401 ∉ forcelist) (h403 : 403 ∉ forcelist) :
    ((responses 0).status = 401 ∨ (responses 0).status = 403 →
      get_json forcelist total responses = (.authError, 1))
    ∧ (∀ (r : Response) (attempts : Nat),
        sessionGet forcelist total responses = (r, attempts) →
        r.status ≠ 200 → r.status ≠ 401 → r.status ≠ 403 →
        get_json forcelist total responses = (.httpError, attempts)) := by
  constructor
  · intro hs
    have hnot : (responses 0).status ∉ forcelist := by
      rcases hs with h | h <;> rw [h] <;> assumption
    have hsg : sessionGet forcelist total responses = (responses 0, 1) := by
      cases total with
      | zero => rfl
      | succ rem => simp [sessionGet, retryLoop, hnot]
    simp [get_json, hsg, hs]
  · intro r attempts hsg hn200 hn401 hn403
    simp [get_json, hsg, hn200, hn401, hn403]

theorem get_json_auth_never_retried_witness :
    get_json [429, 500, 502, 503, 504] 6 (fun _ => ⟨401, true, none⟩)
      = (.authError, 1)
    ∧ get_json [429, 500, 502, 503, 504] 2 (fun _ => ⟨500, true, none⟩)
      = (.httpError, 3) := by
  constructor
  · exact (get_json_auth_never_retried [429, 500, 502, 503, 504] 6
      (fun _ => ⟨401, true, none⟩) (by decide) (by decide)).1 (Or.inl rfl)
  · exact (get_json_auth_never_retried [429, 500, 502, 503, 504] 2
      (fun _ => ⟨500, true, none⟩) (by decide) (by decide)).2
      ⟨500, true, none⟩ 3 rfl (by decide) (by decide) (by decide)

/-! ## Durable writer (`src/utils/io.py`) -/

/-- Filesystem effects of `AtomicWriter.write_json`: writing the serialized
document to the `.tmp` sibling, then `tmp.replace(path)` renaming it over the
target. -/
inductive FsEvent where
  | writeTmp (content : Json)
  | renameTmp

/-- The two files the writer touches: the `.tmp` sibling and the target
output file; `none` means the file does not exist. Contents are modelled as
the JSON document they parse to. -/
structure FsState where
  tmp : Option Json
  target : Option Json

def applyEvent : FsState → FsEvent → FsState
  | st, .writeTmp content => { st with tmp := some content }
  | st, .renameTmp => { tmp := none, target := st.tmp }

/-- Embedding of `AtomicWriter.write_json(obj)`: write the whole document to the temp
file, then atomically rename it over the target. -/
def write_json (obj : Json) : List FsEvent :=
  [.writeTmp obj, .renameTmp]

/-- Embedding of `JsonAccumulator.__init__`: start from `{"results": []}`; if the output
file exists, replace the state with its parsed content, and on any parse
failure fall back to `{"results": []}` again (no exception escapes). The
argument is `none` when the file does not exist, `some none` when it exists
but fails to parse, and `some (some doc)` when it parses to `doc`. -/
def initAccumulator : Option (Option Json) → Json
  | none => .obj [("results", .arr [])]
  | some none => .obj [("results", .arr [])]
  | some (some doc) => doc

/-- Embedding of `JsonAccumulator.append_and_save(item)`: append to `self.data["results"]`
and rewrite the whole document through the atomic writer. `none` models the
exception raised when the state is not a dict with a list-valued `results`
entry (`KeyError` / `AttributeError` / `TypeError`). -/
def append_and_save (data item : Json) : Option (Json × List FsEvent) :=
  match data with
  | .obj fields =>
    match lookupKey fields "results" with
    | some (.arr elems) =>
      let data2 := Json.obj (setKey fields "results" (.arr (elems ++ [item])))
      some (data2, write_json data2)
    | _ => none
  | _ => none

/-- A sequence of `append_and_save` calls: the final in-memory state and the
concatenated filesystem trace, or `none` as soon as one call raises. -/
def accumRun (data : Json) : List Json → Option (Json × List FsEvent)
  | [] => some (data, [])
  | item :: rest =>
    match append_and_save data item with
    | none => none
    | some (data2, evs) =>
      match accumRun data2 rest with
      | none => none
      | some (data3, evs2) => some (data3, evs ++ evs2)

/-- The accumulating document holding `records` under its `results` key. -/
def docOf (records : List Json) : Json :=
  .obj [("results", .arr records)]

/-- The filesystem trace of appending `records` one by one on top of already
accumulated `acc`: for each record, the whole grown document is written to
the temp file and renamed over the target. -/
def expectedTrace (acc : List Json) : List Json → List FsEvent
  | [] => []
  | r :: rest =>
    .writeTmp (docOf (acc ++ [r])) :: .renameTmp :: expectedTrace (acc ++ [r]) rest

theorem accumRun_docOf (records : List Json) : ∀ acc : List Json,
    accumRun (docOf acc) records
      = some (docOf (acc ++ records), expectedTrace acc records) := by
  induction records with
  | nil => intro acc; simp [accumRun, expectedTrace]
  | cons r rest ih =>
    intro acc
    have ih2 := ih (acc ++ [r])
    simp only [docOf] at ih2
    simp [accumRun, append_and_save, docOf, lookupKey, setKey, expectedTrace,
      write_json, ih2]

theorem expectedTrace_target (records : List Json) : ∀ (acc : List Json) (st : FsState),
    records ≠ [] →
    (List.foldl applyEvent st (expectedTrace acc records)).target
      = some (docOf (acc ++ records)) := by
  induction records with
  | nil => intro acc st h; exact absurd rfl h
  | cons r rest ih =>
    intro acc st _
    simp only [expectedTrace, List.foldl_cons]
    rcases eq_or_ne rest [] with hr | hr
    · subst hr
      simp [expectedTrace, applyEvent]
    · rw [ih (acc ++ [r]) _ hr]
      simp

/-- C6: in accumulating mode starting with no existing output file, `N`
sequential `append_and_save` calls with records `r1..rN` leave the in-memory
document `{"results": [r1, ..., rN]}` in append order, each append rewrites
the whole document by a temp-file write followed by a rename over the target,
and after the run the target file holds exactly that document. -/
theorem json_accumulator_appends_in_order (records : List Json) :
    accumRun (initAccumulator none) records
      = some (docOf records, expectedTrace [] records)
    ∧ (records ≠ [] →
        (List.foldl applyEvent ⟨none, none⟩ (expectedTrace [] records)).target
          = some (docOf records)) := by
  constructor
  · simpa using accumRun_docOf records []
  · intro h
    simpa using expectedTrace_target records [] ⟨none, none⟩ h

theorem json_accumulator_appends_in_order_witness :
    accumRun (initAccumulator none) [Json.num 1, Json.num 2]
      = some (docOf [Json.num 1, Json.num 2],
              expectedTrace [] [Json.num 1, Json.num 2])
    ∧ (List.foldl applyEvent ⟨none, none⟩
        (expectedTrace [] [Json.num 1, Json.num 2])).target
      = some (docOf [Json.num 1, Json.num 2]) :=
  ⟨(json_accumulator_appends_in_order [Json.num 1, Json.num 2]).1,
   (json_accumulator_appends_in_order [Json.num 1, Json.num 2]).2
     (List.cons_ne_nil (Json.num 1) [Json.num 2])⟩

/-- C9: when the pre-existing output file fails to parse, the constructor
silently resets the state to `{"results": []}` (no exception), so the first
`append_and_save` succeeds and atomically replaces the file — whatever
unparseable content the target held before — with the document containing
only the newly appended record. -/
theorem json_accumulator_resets_on_unparseable (r prior : Json) :
    initAccumulator (some none) = docOf []
    ∧ append_and_save (initAccumulator (some none)) r
        = some (docOf [r], [.writeTmp (docOf [r]), .renameTmp])
    ∧ (List.foldl applyEvent ⟨none, some prior⟩
        [FsEvent.writeTmp (docOf [r]), FsEvent.renameTmp]).target
      = some (docOf [r]) := by
  refine ⟨rfl, ?_, rfl⟩
  simp [append_and_save, initAccumulator, docOf, lookupKey, setKey, write_json]

end MindatScrapper
